import Mathlib

/-!
Shallow embedding of the core services of the image-recognition web
application (Go): the postprocessing pipeline (`image_processor.go`), the
model registry (`model_service.go`), the upload validator
(`image_service.go`) and the prediction service / result store
(`prediction_service.go`).

Modelling conventions:
* Go `float32`/`float64` arithmetic is modelled over `ℚ` (exact rational
  arithmetic); the transcendental `math.Exp` (and the per-class confidence
  generator built from `math.Exp`/`math.Sin`) is abstracted as an explicit
  function parameter, since none of the verified properties depend on its
  values beyond sign conditions that hold for the real exponential.
* Go maps are modelled as association lists where assignment prepends or
  replaces and lookup takes the first match.
* Wall-clock times (`time.Now()`) are explicit `ℚ` parameters.
* A Go runtime panic (out-of-bounds slice index) is modelled by an outer
  `Option`: `none` is the panic.
-/

namespace ImageRec

/-- Embedding of `fastExp` (image_processor.go): clamps the argument and
otherwise defers to `math.Exp`, which is abstracted as the parameter `E`. -/
def fastExp (E : ℚ → ℚ) (x : ℚ) : ℚ :=
  if x < -700 then 0
  else if x > 700 then (10 : ℚ) ^ (300 : ℕ)
  else E x

/-- The running-maximum loop of `applySoftmax`: `maxVal` starts at
`logits[0]` and is replaced whenever a strictly larger value is seen. -/
def goMax (c : ℚ) (l : List ℚ) : ℚ :=
  l.foldl (fun m v => if v > m then v else m) c

/-- Embedding of `applySoftmax` (image_processor.go).  The Go code reads
`logits[0]` unconditionally, so the empty input panics: modelled as `none`. -/
def applySoftmax (E : ℚ → ℚ) (logits : List ℚ) : Option (List ℚ) :=
  match logits with
  | [] => none
  | l0 :: rest =>
    let maxVal := goMax l0 (l0 :: rest)
    let expVals := (l0 :: rest).map (fun v => fastExp E (v - maxVal))
    let expSum := expVals.sum
    some (expVals.map (fun e => e / expSum))

/-- One inner pass of the double-loop sort in `PostprocessPredictions`
(image_processor.go lines 163-169): the slot value `c` at position `i` is
swapped with `results[j]` whenever the latter has strictly larger key.
Returns the final slot value together with the remaining suffix. -/
def exchPass (f : α → ℚ) : α → List α → α × List α
  | c, [] => (c, [])
  | c, y :: ys =>
    if f y > f c then
      let p := exchPass f y ys
      (p.1, c :: p.2)
    else
      let p := exchPass f c ys
      (p.1, y :: p.2)

/-- Fuel-indexed outer loop of the double-loop sort; the fuel equals the
list length at the top-level call, so the fallback branch is unreachable. -/
def exchSortAux (f : α → ℚ) : ℕ → List α → List α
  | _, [] => []
  | 0, x :: xs => x :: xs
  | n + 1, x :: xs =>
    let p := exchPass f x xs
    p.1 :: exchSortAux f n p.2

/-- The descending exchange sort used by `PostprocessPredictions`:
`for i … for j > i … if results[j].Probability > results[i].Probability swap`. -/
def exchSort (f : α → ℚ) (l : List α) : List α :=
  exchSortAux f l.length l

/-- Embedding of `ClassificationPrediction` (image_processor.go). -/
structure ClassificationPrediction where
  classIndex : ℕ
  className : String
  probability : ℚ
  confidence : ℚ
  deriving Repr, DecidableEq

/-- Embedding of `PostprocessPredictions` (image_processor.go): length
check, default `topK`, softmax, descending exchange sort on probability,
truncation to `topK`.  The outer `Option` is `none` when `applySoftmax`
panics on the empty slice. -/
def postprocessPredictions (E : ℚ → ℚ) (predictions : List ℚ)
    (classNames : List String) (topK : ℤ) :
    Option (Except String (List ClassificationPrediction)) :=
  if predictions.length ≠ classNames.length then
    some (.error "predictions length does not match class names length")
  else
    let k := if topK ≤ 0 then 5 else topK
    match applySoftmax E predictions with
    | none => none
    | some softmaxPreds =>
      let results := (softmaxPreds.zip classNames).enum.map
        (fun p => ClassificationPrediction.mk p.1 p.2.2 p.2.1 p.2.1)
      let sorted := exchSort (fun r => r.probability) results
      some (.ok (sorted.take k.toNat))

/-- Concrete computable stand-in for `math.Exp` used to instantiate
counterexamples and witnesses: `(x² + 2x + 2)/2 = ((x+1)² + 1)/2`, which is
everywhere positive and equals `1` at `0`, like the real exponential. -/
def expPoly (x : ℚ) : ℚ := (x ^ 2 + 2 * x + 2) / 2

/-- First-match association-list lookup, modelling a Go map read. -/
def assocFind (k : String) : List (String × α) → Option α
  | [] => none
  | (k', v) :: rest => if k' = k then some v else assocFind k rest

/-- Replace the value bound to `k` (first occurrence), modelling a Go map
assignment to an existing key. -/
def assocSet (k : String) (v : α) : List (String × α) → List (String × α)
  | [] => []
  | (k', v') :: rest =>
    if k' = k then (k, v) :: rest else (k', v') :: assocSet k v rest

/-- Embedding of `models.ModelInfo` (internal/models). -/
structure ModelInfo where
  id : String
  name : String
  version : String
  description : String
  inputShape : List ℤ
  outputShape : List ℤ
  classes : List String
  loadedAt : ℚ
  metadata : List (String × String)
  deriving Repr, DecidableEq

/-- Embedding of `models.ModelHealth` (internal/models). -/
structure ModelHealth where
  status : String
  lastUsed : ℚ
  predictions : ℕ
  avgTime : ℚ
  errors : ℕ
  deriving Repr, DecidableEq

/-- Embedding of `LoadedModel` (model_service.go). -/
structure LoadedModel where
  info : ModelInfo
  health : ModelHealth
  lastUsed : ℚ
  predictions : ℕ
  errors : ℕ
  totalTime : ℚ
  deriving Repr, DecidableEq

/-- Embedding of `ModelService`'s mutable fields (model_service.go): the
model map and the default-model id.  The mutex is not modelled; operations
are sequentialised. -/
structure ModelServiceState where
  models : List (String × LoadedModel)
  defaultModel : String
  deriving Repr, DecidableEq

/-- Embedding of `getDefaultClasses` (model_service.go). -/
def getDefaultClasses : List String :=
  ["cat", "dog", "bird", "car", "truck", "airplane", "boat", "train",
   "bicycle", "motorcycle", "person", "horse", "sheep", "cow", "elephant",
   "bear", "zebra", "giraffe", "backpack", "umbrella", "handbag", "tie",
   "suitcase", "frisbee", "skis", "snowboard", "sports ball", "kite",
   "baseball bat", "baseball glove", "skateboard", "surfboard", "tennis racket",
   "bottle", "wine glass", "cup", "fork", "knife", "spoon", "bowl",
   "banana", "apple", "sandwich", "orange", "broccoli", "carrot",
   "hot dog", "pizza", "donut", "cake", "chair", "couch", "potted plant"]

/-- Embedding of `createDefaultMetadata` (model_service.go). -/
def createDefaultMetadata (cfgVersion : String) (now : ℚ) (modelID : String) :
    ModelInfo :=
  { id := modelID
    name := "Model " ++ modelID
    version := cfgVersion
    description := "Image classification model"
    inputShape := [224, 224, 3]
    outputShape := [1000]
    classes := getDefaultClasses
    loadedAt := now
    metadata := [] }

/-- The fresh `ModelHealth` record every load path constructs. -/
def freshHealth (now : ℚ) : ModelHealth :=
  { status := "healthy", lastUsed := now, predictions := 0, avgTime := 0,
    errors := 0 }

/-- Embedding of `createDummyModel` (model_service.go): the placeholder
model synthesized when no real model can be loaded. -/
def createDummyModel (now : ℚ) : LoadedModel :=
  { info :=
      { id := "dummy"
        name := "Dummy Model"
        version := "1.0.0"
        description := "Development dummy model for testing"
        inputShape := [224, 224, 3]
        outputShape := [50]
        classes := getDefaultClasses.take 50
        loadedAt := now
        metadata := [("type", "dummy")] }
    health := freshHealth now
    lastUsed := now
    predictions := 0
    errors := 0
    totalTime := 0 }

/-- A directory entry seen by `LoadModels`: its name, whether it is a
subdirectory, and the parsed `metadata.json` (`none` when the file is
missing or malformed, in which case `createDefaultMetadata` is used). -/
structure DirEntry where
  name : String
  isDir : Bool
  metadata : Option ModelInfo
  deriving Repr, DecidableEq

/-- Embedding of `loadModel` (model_service.go) for an existing
subdirectory: metadata from `metadata.json` (with `LoadedAt` stamped) or
default metadata, wrapped with fresh health and counters. -/
def loadModelEntry (cfgVersion : String) (now : ℚ) (e : DirEntry) :
    LoadedModel :=
  let info :=
    match e.metadata with
    | some m => { m with loadedAt := now }
    | none => createDefaultMetadata cfgVersion now e.name
  { info := info
    health := freshHealth now
    lastUsed := now
    predictions := 0
    errors := 0
    totalTime := 0 }

/-- Embedding of `LoadModels` (model_service.go) on a fresh service.  The
model directory is `none` when absent, otherwise the list of entries.  Each
subdirectory loads (metadata failures fall back to defaults, so `loadModel`
never fails here); the first loaded model becomes the default; if nothing
was loaded — directory absent, or no subdirectories — `createDummyModel`
installs the `"dummy"` placeholder and makes it the default. -/
def loadModels (cfgVersion : String) (now : ℚ)
    (dir : Option (List DirEntry)) : ModelServiceState :=
  match dir with
  | none => { models := [("dummy", createDummyModel now)], defaultModel := "dummy" }
  | some entries =>
    let subdirs := entries.filter (fun e => e.isDir)
    let st := subdirs.foldl
      (fun st e =>
        { models := st.models ++ [(e.name, loadModelEntry cfgVersion now e)]
          defaultModel := if st.defaultModel = "" then e.name else st.defaultModel })
      ({ models := [], defaultModel := "" } : ModelServiceState)
    if subdirs.length = 0 then
      { models := st.models ++ [("dummy", createDummyModel now)],
        defaultModel := "dummy" }
    else st

/-- Embedding of `GetModel` (model_service.go): the empty id resolves to
the default model; a missing key is an error. -/
def getModel (st : ModelServiceState) (modelID : String) :
    Except String LoadedModel :=
  let mid := if modelID = "" then st.defaultModel else modelID
  match assocFind mid st.models with
  | some m => .ok m
  | none => .error ("model not found: " ++ mid)

/-- Embedding of `ListModels` (model_service.go): the `ModelInfo` of every
loaded model (Go map iteration order is abstracted by the list order). -/
def listModels (st : ModelServiceState) : List ModelInfo :=
  st.models.map (fun p => p.2.info)

/-- Embedding of `GetModelStatus` (model_service.go): per-model health map. -/
def getModelStatus (st : ModelServiceState) : List (String × ModelHealth) :=
  st.models.map (fun p => (p.1, p.2.health))

/-- Embedding of the aggregate-status loop of `Handler.APIHealthCheck`
(handlers.go lines 273-280): overall status starts `"healthy"` and becomes
`"degraded"` as soon as some model's health status is not `"healthy"`. -/
def healthCheckStatus (modelStatus : List (String × ModelHealth)) : String :=
  if modelStatus.any (fun p => p.2.status ≠ "healthy") then "degraded"
  else "healthy"

/-- Embedding of `UpdateModelStats` (model_service.go) on one model:
timestamps, prediction counters and total time advance on every call; on
success the rolling average is recomputed, on failure the error counters
advance; the health status is recomputed from the current error rate. -/
def updateModelStats (now : ℚ) (m : LoadedModel) (processingTime : ℚ)
    (success : Bool) : LoadedModel :=
  let m1 :=
    { m with
        lastUsed := now
        health := { m.health with lastUsed := now,
                                  predictions := m.health.predictions + 1 }
        predictions := m.predictions + 1
        totalTime := m.totalTime + processingTime }
  let m2 :=
    if success then
      { m1 with health :=
          { m1.health with avgTime := m1.totalTime / (m1.predictions : ℚ) } }
    else
      { m1 with
          errors := m1.errors + 1
          health := { m1.health with errors := m1.health.errors + 1 } }
  let errorRate : ℚ := (m2.errors : ℚ) / (m2.predictions : ℚ)
  { m2 with health :=
      { m2.health with status :=
          if errorRate > 1 / 2 then "unhealthy"
          else if errorRate > 1 / 10 then "degraded"
          else "healthy" } }

/-- `UpdateModelStats` at the service level: a missing model id is a no-op. -/
def updateModelStatsSvc (st : ModelServiceState) (now : ℚ) (modelID : String)
    (processingTime : ℚ) (success : Bool) : ModelServiceState :=
  match assocFind modelID st.models with
  | none => st
  | some m =>
    let updated := updateModelStats now m processingTime success
    { st with models := assocSet modelID updated st.models }

/-- A sequence of `UpdateModelStats` calls on one model, each outcome given
as (wall-clock time, processing time, success flag). -/
def runOutcomes (m : LoadedModel) (outs : List (ℚ × ℚ × Bool)) : LoadedModel :=
  outs.foldl (fun m o => updateModelStats o.1 m o.2.1 o.2.2) m

/-- Number of failures in an outcome sequence. -/
def countFailures (outs : List (ℚ × ℚ × Bool)) : ℕ :=
  outs.countP (fun o => !o.2.2)

/-- Embedding of the upload-related configuration (config.go): maximum
declared file size and the content-type allow-list. -/
structure UploadConfig where
  maxFileSize : ℤ
  allowedTypes : List String
  deriving Repr, DecidableEq

/-- The configuration defaults (config.go lines 97-98): 10 MiB and the
JPEG/PNG/WebP allow-list. -/
def defaultUploadConfig : UploadConfig :=
  { maxFileSize := 10485760
    allowedTypes := ["image/jpeg", "image/png", "image/webp"] }

/-- Embedding of `isAllowedType` (image_service.go). -/
def isAllowedType (cfg : UploadConfig) (contentType : String) : Bool :=
  cfg.allowedTypes.any (fun t => contentType = t)

/-- Embedding of `detectMimeType` (image_service.go): sniffs the MIME type
from the leading magic bytes.  Bytes are modelled as naturals. -/
def detectMimeType (data : List ℕ) : String :=
  if data.length < 4 then "application/octet-stream"
  else if data.take 3 = [0xFF, 0xD8, 0xFF] then "image/jpeg"
  else if data.take 4 = [0x89, 0x50, 0x4E, 0x47] then "image/png"
  else if 12 ≤ data.length ∧ data.take 4 = [0x52, 0x49, 0x46, 0x46] ∧
      (data.drop 8).take 4 = [0x57, 0x45, 0x42, 0x50] then "image/webp"
  else "application/octet-stream"

/-- Embedding of `ValidateImage` (image_service.go): declared-size check,
declared content-type check, then the sniffed type of the first 512 bytes
must also be in the allow-list.  The `Seek`/`Read` I/O error paths cannot
occur on an in-memory buffer and are not modelled. -/
def validateImage (cfg : UploadConfig) (declaredSize : ℤ)
    (contentType : String) (data : List ℕ) : Except String Unit :=
  if declaredSize > cfg.maxFileSize then
    .error "file size exceeds maximum allowed size"
  else if ¬ isAllowedType cfg contentType then
    .error "unsupported file type"
  else
    let detectedType := detectMimeType (data.take 512)
    if ¬ isAllowedType cfg detectedType then
      .error "detected file type is not allowed"
    else .ok ()

/-- Embedding of `models.ImageMetadata` (internal/models). -/
structure ImageMetadata where
  filename : String
  size : ℤ
  width : ℤ
  height : ℤ
  format : String
  contentType : String
  uploadedAt : ℚ
  deriving Repr, DecidableEq

/-- Embedding of `models.ClassificationResult` (internal/models). -/
structure ClassificationResult where
  className : String
  label : String
  description : String
  confidence : ℚ
  probability : ℚ
  deriving Repr, DecidableEq

/-- Embedding of `models.PredictionResult` (internal/models). -/
structure PredictionResult where
  id : String
  predictions : List ClassificationResult
  metadata : ImageMetadata
  processedAt : ℚ
  processTime : ℚ
  modelInfo : ModelInfo
  deriving Repr, DecidableEq

/-- Embedding of `getClassDescription` (prediction_service.go). -/
def getClassDescription (className : String) : String :=
  let descriptions : List (String × String) :=
    [("cat", "A small domestic feline mammal"),
     ("dog", "A domestic canine companion animal"),
     ("bird", "A feathered, winged, bipedal animal"),
     ("car", "A four-wheeled motor vehicle"),
     ("truck", "A large motor vehicle for transporting goods"),
     ("airplane", "A powered flying vehicle with wings"),
     ("boat", "A watercraft designed for travel on water"),
     ("train", "A connected series of railway cars"),
     ("bicycle", "A two-wheeled vehicle powered by pedaling"),
     ("motorcycle", "A two-wheeled motor vehicle"),
     ("person", "A human being"),
     ("horse", "A large domesticated ungulate mammal"),
     ("sheep", "A woolly ruminant mammal"),
     ("cow", "A large domesticated bovine animal"),
     ("elephant", "A large mammal with a trunk"),
     ("bear", "A large omnivorous mammal"),
     ("zebra", "A black and white striped equine"),
     ("giraffe", "A tall African mammal with a long neck")]
  match assocFind className descriptions with
  | some d => d
  | none => "A " ++ className ++ " object or entity"

/-- Embedding of `normalizeProbabilities` (prediction_service.go): divides
every probability by the total if the total is positive. -/
def normalizeProbabilities (predictions : List ClassificationResult) :
    List ClassificationResult :=
  let total := (predictions.map (fun p => p.probability)).sum
  if total > 0 then
    predictions.map (fun p => { p with probability := p.probability / total })
  else predictions

/-- Embedding of `performInference` (prediction_service.go).  The
pseudo-random `generateConfidence(seed, i)` is built from `math.Exp` and
`math.Sin` and is abstracted as the parameter `conf : ℕ → ℚ` (the
confidence assigned to class index `i`).  First at most 10 classes are
considered, candidates need confidence above 1%, candidates are sorted
descending by confidence (`sort.Slice`, modelled by the descending
exchange sort: any descending sorted permutation), probabilities are
normalized over all candidates, and the result is truncated to 5; an empty
final list is the error case. -/
def infCandidates (classes : List String) (conf : ℕ → ℚ) :
    List ClassificationResult :=
  (classes.take 10).enum.filterMap
    (fun p =>
      let c := conf p.1
      if c > 1 / 100 then
        some (ClassificationResult.mk p.2 p.2 (getClassDescription p.2) c c)
      else none)

def performInference (classes : List String) (conf : ℕ → ℚ) :
    Except String (List ClassificationResult) :=
  let sorted := exchSort (fun r => r.confidence) (infCandidates classes conf)
  let normed := normalizeProbabilities sorted
  let top := normed.take 5
  if top.length = 0 then .error "no valid predictions generated"
  else .ok top

/-- Embedding of `PredictionService`'s mutable state: the model service it
wraps and the in-memory result store. -/
structure PredSvcState where
  modelSvc : ModelServiceState
  results : List (String × PredictionResult)
  deriving Repr, DecidableEq

/-- Embedding of `GetResult` (prediction_service.go). -/
def getResult (results : List (String × PredictionResult))
    (resultID : String) : Except String PredictionResult :=
  match assocFind resultID results with
  | some r => .ok r
  | none => .error ("result not found: " ++ resultID)

/-- Storing a result (`s.results[resultID] = result`): map assignment,
modelled by prepending so that first-match lookup sees the new binding. -/
def putResult (results : List (String × PredictionResult))
    (resultID : String) (r : PredictionResult) :
    List (String × PredictionResult) :=
  (resultID, r) :: results

/-- Embedding of `CleanupResults` (prediction_service.go): deletes every
entry whose `ProcessedAt` is strictly before `now - maxAge`. -/
def cleanupResults (results : List (String × PredictionResult))
    (now maxAge : ℚ) : List (String × PredictionResult) :=
  results.filter (fun p => ! decide (p.2.processedAt < now - maxAge))

/-- Embedding of `PredictImage` (prediction_service.go).  The effectful
stages are abstracted as explicit outcome parameters: `decodeRes` and
`preRes` are the image decode and preprocess outcomes, `infRes` the
`performInference` outcome, `procTime` the measured elapsed time, `now`
the wall clock and `freshID` the value of the crypto-random
`generateResultID`.  The control flow mirrors the source: model lookup,
decode, preprocess, inference (recording a failure outcome with zero time
on inference error), then statistics update, result construction and
storage. -/
def predictImage (st : PredSvcState) (modelID : String)
    (metadata : ImageMetadata) (decodeRes : Except String Unit)
    (preRes : Except String Unit)
    (infRes : Except String (List ClassificationResult))
    (procTime : ℚ) (freshID : String) (now : ℚ) :
    PredSvcState × Except String PredictionResult :=
  match getModel st.modelSvc modelID with
  | .error e => (st, .error ("failed to get model: " ++ e))
  | .ok model =>
    match decodeRes with
    | .error e => (st, .error ("failed to decode image: " ++ e))
    | .ok _ =>
      match preRes with
      | .error e => (st, .error ("failed to preprocess image: " ++ e))
      | .ok _ =>
        match infRes with
        | .error e =>
          ({ st with modelSvc :=
              updateModelStatsSvc st.modelSvc now model.info.id 0 false },
           .error ("inference failed: " ++ e))
        | .ok predictions =>
          let svc := updateModelStatsSvc st.modelSvc now model.info.id
            procTime true
          let result : PredictionResult :=
            { id := freshID
              predictions := predictions
              metadata := metadata
              processedAt := now
              processTime := procTime
              modelInfo := model.info }
          ({ modelSvc := svc, results := putResult st.results freshID result },
           .ok result)

/-- The health tier determined by an error count and a prediction count,
as recomputed at the end of every `UpdateModelStats` call. -/
def healthStatusOf (errors predictions : ℕ) : String :=
  if (errors : ℚ) / (predictions : ℚ) > 1 / 2 then "unhealthy"
  else if (errors : ℚ) / (predictions : ℚ) > 1 / 10 then "degraded"
  else "healthy"

/-! ### Lemmas about the exchange sort -/

theorem exchPass_length (f : α → ℚ) (c : α) (l : List α) :
    (exchPass f c l).2.length = l.length := by
  induction l generalizing c with
  | nil => rfl
  | cons y ys ih =>
    simp only [exchPass]
    split <;> simp [ih]

theorem exchPass_perm (f : α → ℚ) (c : α) (l : List α) :
    List.Perm ((exchPass f c l).1 :: (exchPass f c l).2) (c :: l) := by
  induction l generalizing c with
  | nil => simp [exchPass]
  | cons y ys ih =>
    simp only [exchPass]
    split <;> dsimp only
    · exact (List.Perm.swap c _ _).trans ((ih y).cons c)
    · exact (List.Perm.swap y _ _).trans (((ih c).cons y).trans
        (List.Perm.swap c y ys))

theorem exchPass_le (f : α → ℚ) (c : α) (l : List α) :
    f c ≤ f (exchPass f c l).1 ∧
      ∀ x ∈ (exchPass f c l).2, f x ≤ f (exchPass f c l).1 := by
  induction l generalizing c with
  | nil => simp [exchPass]
  | cons y ys ih =>
    simp only [exchPass]
    split <;> dsimp only
    · rename_i hgt
      have hcy : f c ≤ f (exchPass f y ys).1 :=
        le_of_lt (lt_of_lt_of_le hgt (ih y).1)
      refine ⟨hcy, ?_⟩
      intro x hx
      rcases List.mem_cons.mp hx with h | h
      · subst h; exact hcy
      · exact (ih y).2 x h
    · rename_i hle
      refine ⟨(ih c).1, ?_⟩
      intro x hx
      rcases List.mem_cons.mp hx with h | h
      · subst h; exact le_trans (not_lt.mp hle) (ih c).1
      · exact (ih c).2 x h

theorem exchSortAux_perm (f : α → ℚ) :
    ∀ (n : ℕ) (l : List α), l.length ≤ n →
      List.Perm (exchSortAux f n l) l := by
  intro n
  induction n with
  | zero =>
    intro l hl
    cases l with
    | nil => simp [exchSortAux]
    | cons x xs => simp at hl
  | succ n ih =>
    intro l hl
    cases l with
    | nil => simp [exchSortAux]
    | cons x xs =>
      simp only [exchSortAux]
      have hlen : (exchPass f x xs).2.length ≤ n := by
        rw [exchPass_length]
        simpa using hl
      exact ((ih _ hlen).cons _).trans (exchPass_perm f x xs)

theorem exchSortAux_pairwise (f : α → ℚ) :
    ∀ (n : ℕ) (l : List α), l.length ≤ n →
      (exchSortAux f n l).Pairwise (fun a b => f b ≤ f a) := by
  intro n
  induction n with
  | zero =>
    intro l hl
    cases l with
    | nil => simp [exchSortAux]
    | cons x xs => simp at hl
  | succ n ih =>
    intro l hl
    cases l with
    | nil => simp [exchSortAux]
    | cons x xs =>
      simp only [exchSortAux]
      have hlen : (exchPass f x xs).2.length ≤ n := by
        rw [exchPass_length]
        simpa using hl
      refine List.pairwise_cons.mpr ⟨?_, ih _ hlen⟩
      intro b hb
      have hmem : b ∈ (exchPass f x xs).2 :=
        (exchSortAux_perm f n _ hlen).mem_iff.mp hb
      exact (exchPass_le f x xs).2 b hmem

theorem exchSort_perm (f : α → ℚ) (l : List α) :
    List.Perm (exchSort f l) l :=
  exchSortAux_perm f l.length l le_rfl

theorem exchSort_pairwise (f : α → ℚ) (l : List α) :
    (exchSort f l).Pairwise (fun a b => f b ≤ f a) :=
  exchSortAux_pairwise f l.length l le_rfl

/-! ### Arithmetic helpers on rational lists -/

theorem sum_map_div (l : List ℚ) (d : ℚ) :
    (l.map (fun x => x / d)).sum = l.sum / d := by
  induction l with
  | nil => simp
  | cons x xs ih => simp [ih, add_div]

theorem sum_pos_of_mem (l : List ℚ) (hnn : ∀ x ∈ l, 0 ≤ x) (y : ℚ)
    (hy : y ∈ l) (hpos : 0 < y) : 0 < l.sum := by
  induction l with
  | nil => simp at hy
  | cons x xs ih =>
    rcases List.mem_cons.mp hy with h | h
    · have hxs : 0 ≤ xs.sum :=
        List.sum_nonneg (fun a ha => hnn a (List.mem_cons_of_mem x ha))
      subst h
      simpa using add_pos_of_pos_of_nonneg hpos hxs
    · have hx : 0 ≤ x := hnn x (List.mem_cons_self x xs)
      have := ih (fun a ha => hnn a (List.mem_cons_of_mem x ha)) h
      simpa using add_pos_of_nonneg_of_pos hx this

theorem goMax_mem (c : ℚ) (l : List ℚ) : goMax c l ∈ c :: l := by
  induction l generalizing c with
  | nil => simp [goMax]
  | cons v vs ih =>
    have step : goMax c (v :: vs) = goMax (if v > c then v else c) vs := rfl
    rw [step]
    rcases List.mem_cons.mp (ih (if v > c then v else c)) with h | h
    · rw [h]
      split <;> simp
    · simp [h]

/-! ### Lemmas about the softmax -/

theorem fastExp_nonneg (E : ℚ → ℚ) (hE : ∀ x, 0 ≤ E x) (x : ℚ) :
    0 ≤ fastExp E x := by
  unfold fastExp
  split
  · exact le_refl 0
  · split
    · positivity
    · exact hE x

theorem fastExp_zero (E : ℚ → ℚ) : fastExp E 0 = E 0 := by
  norm_num [fastExp]

theorem applySoftmax_cons (E : ℚ → ℚ) (l0 : ℚ) (rest : List ℚ) :
    applySoftmax E (l0 :: rest) =
      some (((l0 :: rest).map
          (fun v => fastExp E (v - goMax l0 (l0 :: rest)))).map
        (fun e =>
          e / ((l0 :: rest).map
            (fun v => fastExp E (v - goMax l0 (l0 :: rest)))).sum)) := rfl

theorem applySoftmax_sum (E : ℚ → ℚ) (hE : ∀ x, 0 ≤ E x) (hE0 : 0 < E 0)
    (l0 : ℚ) (rest : List ℚ) :
    ∃ probs, applySoftmax E (l0 :: rest) = some probs ∧ probs.sum = 1 := by
  set m := goMax l0 (l0 :: rest) with hm
  set ev := (l0 :: rest).map (fun v => fastExp E (v - m)) with hev
  have hmem : m ∈ l0 :: rest := by
    rcases List.mem_cons.mp (goMax_mem l0 (l0 :: rest)) with h | h
    · rw [hm, h]; exact List.mem_cons_self l0 rest
    · exact h
  have hE0mem : E 0 ∈ ev := by
    rw [hev]
    exact List.mem_map.mpr ⟨m, hmem, by rw [sub_self, fastExp_zero]⟩
  have hnn : ∀ x ∈ ev, 0 ≤ x := by
    intro x hx
    rw [hev] at hx
    obtain ⟨v, _, rfl⟩ := List.mem_map.mp hx
    exact fastExp_nonneg E hE _
  have hS : 0 < ev.sum := sum_pos_of_mem ev hnn (E 0) hE0mem hE0
  refine ⟨ev.map (fun e => e / ev.sum), applySoftmax_cons E l0 rest, ?_⟩
  rw [sum_map_div, div_self (ne_of_gt hS)]

theorem goMax_shift (d : ℚ) (c : ℚ) (l : List ℚ) :
    goMax (c + d) (l.map (fun v => v + d)) = goMax c l + d := by
  induction l generalizing c with
  | nil => simp [goMax]
  | cons v vs ih =>
    have h1 : goMax (c + d) ((v :: vs).map (fun v => v + d)) =
        goMax (if v + d > c + d then v + d else c + d)
          (vs.map (fun v => v + d)) := rfl
    have h2 : goMax c (v :: vs) = goMax (if v > c then v else c) vs := rfl
    rw [h1, h2]
    by_cases hvc : v > c
    · rw [if_pos (by exact add_lt_add_right hvc d), if_pos hvc, ih]
    · rw [if_neg (by simpa using hvc), if_neg hvc, ih]

theorem applySoftmax_shift (E : ℚ → ℚ) (d : ℚ) (logits : List ℚ) :
    applySoftmax E (logits.map (fun v => v + d)) = applySoftmax E logits := by
  cases logits with
  | nil => rfl
  | cons l0 rest =>
    have hmap : (l0 :: rest).map (fun v => v + d) =
        (l0 + d) :: rest.map (fun v => v + d) := rfl
    rw [hmap, applySoftmax_cons, applySoftmax_cons]
    have hmax : goMax (l0 + d) ((l0 + d) :: rest.map (fun v => v + d)) =
        goMax l0 (l0 :: rest) + d := by
      have : ((l0 + d) :: rest.map (fun v => v + d)) =
          (l0 :: rest).map (fun v => v + d) := rfl
      rw [this, goMax_shift]
    rw [hmax]
    have hev : ((l0 + d) :: rest.map (fun v => v + d)).map
        (fun v => fastExp E (v - (goMax l0 (l0 :: rest) + d))) =
        (l0 :: rest).map (fun v => fastExp E (v - goMax l0 (l0 :: rest))) := by
      have : ((l0 + d) :: rest.map (fun v => v + d)) =
          (l0 :: rest).map (fun v => v + d) := rfl
      rw [this, List.map_map]
      refine List.map_congr_left ?_
      intro v _
      simp only [Function.comp]
      ring_nf
    rw [hev]

/-- Unfolding of `postprocessPredictions` when the length check passes and
the softmax value is known. -/
theorem postprocessPredictions_eq (E : ℚ → ℚ) (preds : List ℚ)
    (classNames : List String) (topK : ℤ)
    (hlen : preds.length = classNames.length) (probs : List ℚ)
    (hsm : applySoftmax E preds = some probs) :
    postprocessPredictions E preds classNames topK =
      some (Except.ok
        ((exchSort (fun r => r.probability)
          ((probs.zip classNames).enum.map
            (fun p => ClassificationPrediction.mk p.1 p.2.2 p.2.1 p.2.1))).take
          (if topK ≤ 0 then (5 : ℤ) else topK).toNat)) := by
  unfold postprocessPredictions
  rw [if_neg (by simp [hlen]), hsm]

theorem expPoly_nonneg : ∀ x : ℚ, 0 ≤ expPoly x := by
  intro x
  unfold expPoly
  nlinarith [sq_nonneg (x + 1)]

/-! ### Claim theorems: postprocessing pipeline -/

/-- C1: for every score vector and class-name list of equal length `N ≥ 1`
(and any exponential model `E` that is nonnegative with `E 0 > 0`, as
`math.Exp` is), `PostprocessPredictions` succeeds, the softmax
probabilities over the full class set sum to `1.0` within `1e-6` (here:
exactly `1`), and the returned top-K list is sorted non-increasing by
probability. -/
theorem postprocess_sum_one_topK_sorted (E : ℚ → ℚ) (preds : List ℚ)
    (classNames : List String) (topK : ℤ)
    (hE : ∀ x, 0 ≤ E x) (hE0 : 0 < E 0)
    (hlen : preds.length = classNames.length) (hne : 1 ≤ preds.length) :
    ∃ probs out,
      applySoftmax E preds = some probs ∧
      postprocessPredictions E preds classNames topK =
        some (Except.ok out) ∧
      |probs.sum - 1| ≤ 1 / 1000000 ∧
      out.Pairwise (fun a b => b.probability ≤ a.probability) := by
  cases preds with
  | nil => simp at hne
  | cons l0 rest =>
    obtain ⟨probs, hsm, hsum⟩ := applySoftmax_sum E hE hE0 l0 rest
    refine ⟨probs, _, hsm,
      postprocessPredictions_eq E _ classNames topK hlen probs hsm, ?_, ?_⟩
    · rw [hsum]
      norm_num
    · exact List.Pairwise.sublist (List.take_sublist _ _)
        (exchSort_pairwise _ _)

theorem postprocess_sum_one_topK_sorted_witness :
    ∃ probs out,
      applySoftmax expPoly [0, 0] = some probs ∧
      postprocessPredictions expPoly [0, 0] ["a", "b"] 5 =
        some (Except.ok out) ∧
      |probs.sum - 1| ≤ 1 / 1000000 ∧
      out.Pairwise (fun a b => b.probability ≤ a.probability) :=
  postprocess_sum_one_topK_sorted expPoly [0, 0] ["a", "b"] 5 expPoly_nonneg
    (by norm_num [expPoly]) rfl (by norm_num)

/-- C5: softmax is invariant under adding a constant to every logit,
because the running maximum shifts by the same constant and only the
differences `val - maxVal` are exponentiated; in the exact rational model
the two results are identical, for every exponential model `E`. -/
theorem applySoftmax_shift_invariant (E : ℚ → ℚ) (c : ℚ)
    (logits : List ℚ) :
    applySoftmax E (logits.map (fun v => v + c)) = applySoftmax E logits :=
  applySoftmax_shift E c logits

/-- C4 counterexample: on logits `[0,0,1]` (classes `a`, `b`, `c`, with the
positive exponential model `expPoly`) classes `a` and `b` tie with
probability `1/4`, yet the returned list is `[c, b, a]` — the tied entries
appear in descending original index order, because the strictly-greater
swap of the exchange sort moved `a` behind `b`.  The descending sort of
`PostprocessPredictions` is therefore not stable. -/
theorem postprocess_sort_not_stable_cex :
    postprocessPredictions expPoly [0, 0, 1] ["a", "b", "c"] 3 =
      some (Except.ok
        [⟨2, "c", 1/2, 1/2⟩, ⟨1, "b", 1/4, 1/4⟩, ⟨0, "a", 1/4, 1/4⟩]) ∧
    ¬ ([⟨2, "c", 1/2, 1/2⟩, ⟨1, "b", 1/4, 1/4⟩, ⟨0, "a", 1/4, 1/4⟩] :
        List ClassificationPrediction).Pairwise
        (fun a b => a.probability = b.probability →
          a.classIndex ≤ b.classIndex) := by
  constructor
  · norm_num [postprocessPredictions, applySoftmax, goMax, fastExp, expPoly,
      exchSort, exchSortAux, exchPass]
  · intro h
    have h2 := (List.pairwise_cons.mp (List.pairwise_cons.mp h).2).1 _
      (List.mem_singleton.mpr rfl)
    simp at h2

/-- C4 amended: the descending sort of `PostprocessPredictions` is not
stable — tied entries may appear in either order.  What holds: the
returned list is a `topK`-prefix of some permutation of the softmax-indexed
candidates that is sorted non-increasing by probability. -/
theorem postprocess_sorted_perm_of_candidates (E : ℚ → ℚ) (preds : List ℚ)
    (classNames : List String) (topK : ℤ)
    (hlen : preds.length = classNames.length) (hne : 1 ≤ preds.length) :
    ∃ probs sorted,
      applySoftmax E preds = some probs ∧
      List.Perm sorted
        ((probs.zip classNames).enum.map
          (fun p => ClassificationPrediction.mk p.1 p.2.2 p.2.1 p.2.1)) ∧
      sorted.Pairwise (fun a b => b.probability ≤ a.probability) ∧
      postprocessPredictions E preds classNames topK =
        some (Except.ok
          (sorted.take (if topK ≤ 0 then (5 : ℤ) else topK).toNat)) := by
  cases preds with
  | nil => simp at hne
  | cons l0 rest =>
    exact ⟨_, _, applySoftmax_cons E l0 rest, exchSort_perm _ _,
      exchSort_pairwise _ _,
      postprocessPredictions_eq E _ classNames topK hlen _
        (applySoftmax_cons E l0 rest)⟩

theorem postprocess_sorted_perm_of_candidates_witness :
    ∃ probs sorted,
      applySoftmax expPoly [0, 0, 1] = some probs ∧
      List.Perm sorted
        ((probs.zip ["a", "b", "c"]).enum.map
          (fun p => ClassificationPrediction.mk p.1 p.2.2 p.2.1 p.2.1)) ∧
      sorted.Pairwise (fun a b => b.probability ≤ a.probability) ∧
      postprocessPredictions expPoly [0, 0, 1] ["a", "b", "c"] 3 =
        some (Except.ok
          (sorted.take (if (3 : ℤ) ≤ 0 then (5 : ℤ) else 3).toNat)) :=
  postprocess_sorted_perm_of_candidates expPoly [0, 0, 1] ["a", "b", "c"] 3
    rfl (by norm_num)

/-- C9 counterexample: on the equal-length pair of empty lists the length
guard passes but `applySoftmax` reads `logits[0]` of an empty slice: the Go
code panics (modelled as `none`), so `PostprocessPredictions` is not total
on the claimed precondition. -/
theorem postprocess_empty_input_panics_cex :
    ([] : List ℚ).length = ([] : List String).length ∧
    postprocessPredictions expPoly [] [] 5 = none ∧
    applySoftmax expPoly [] = none :=
  ⟨rfl, rfl, rfl⟩

/-- C9 amended: `PostprocessPredictions` returns normally (no
out-of-bounds access) for every pair of equal-length lists that is
nonempty; on both-empty input `applySoftmax`'s unconditional read of index
0 faults. -/
theorem postprocess_total_on_nonempty (E : ℚ → ℚ) (preds : List ℚ)
    (classNames : List String) (topK : ℤ)
    (hlen : preds.length = classNames.length) (hne : 1 ≤ preds.length) :
    ∃ out, postprocessPredictions E preds classNames topK =
      some (Except.ok out) := by
  cases preds with
  | nil => simp at hne
  | cons l0 rest =>
    exact ⟨_, postprocessPredictions_eq E _ classNames topK hlen _
      (applySoftmax_cons E l0 rest)⟩

theorem postprocess_total_on_nonempty_witness :
    ∃ out, postprocessPredictions expPoly [0] ["a"] 5 =
      some (Except.ok out) :=
  postprocess_total_on_nonempty expPoly [0] ["a"] 5 rfl (by norm_num)

/-! ### Lemmas about model statistics -/

theorem updateModelStats_counters (now : ℚ) (m : LoadedModel) (t : ℚ)
    (s : Bool) :
    (updateModelStats now m t s).predictions = m.predictions + 1 ∧
    (updateModelStats now m t s).health.predictions =
      m.health.predictions + 1 ∧
    (updateModelStats now m t s).errors =
      m.errors + (if s then 0 else 1) ∧
    (updateModelStats now m t s).health.errors =
      m.health.errors + (if s then 0 else 1) ∧
    (updateModelStats now m t s).totalTime = m.totalTime + t ∧
    (updateModelStats now m t s).health.status =
      healthStatusOf (updateModelStats now m t s).errors
        (updateModelStats now m t s).predictions := by
  unfold updateModelStats healthStatusOf
  cases s <;> simp

theorem updateModelStats_avgTime (now : ℚ) (m : LoadedModel) (t : ℚ) :
    (updateModelStats now m t true).health.avgTime =
      (updateModelStats now m t true).totalTime /
        ((updateModelStats now m t true).predictions : ℚ) := by
  unfold updateModelStats
  simp

theorem countFailures_cons (o : ℚ × ℚ × Bool) (os : List (ℚ × ℚ × Bool)) :
    countFailures (o :: os) = (if o.2.2 then 0 else 1) + countFailures os := by
  unfold countFailures
  rw [List.countP_cons]
  cases h : o.2.2 <;> simp [h] <;> omega

theorem runOutcomes_counters (outs : List (ℚ × ℚ × Bool)) :
    ∀ m : LoadedModel,
      (runOutcomes m outs).predictions = m.predictions + outs.length ∧
      (runOutcomes m outs).health.predictions =
        m.health.predictions + outs.length ∧
      (runOutcomes m outs).errors = m.errors + countFailures outs ∧
      (runOutcomes m outs).health.errors =
        m.health.errors + countFailures outs := by
  induction outs with
  | nil =>
    intro m
    simp [runOutcomes, countFailures]
  | cons o os ih =>
    intro m
    have hfold : runOutcomes m (o :: os) =
        runOutcomes (updateModelStats o.1 m o.2.1 o.2.2) os := rfl
    obtain ⟨c1, c2, c3, c4, _, _⟩ :=
      updateModelStats_counters o.1 m o.2.1 o.2.2
    obtain ⟨i1, i2, i3, i4⟩ := ih (updateModelStats o.1 m o.2.1 o.2.2)
    rw [hfold]
    refine ⟨?_, ?_, ?_, ?_⟩
    · rw [i1, c1, List.length_cons]
      omega
    · rw [i2, c2, List.length_cons]
      omega
    · rw [i3, c3, countFailures_cons]
      omega
    · rw [i4, c4, countFailures_cons]
      omega

theorem runOutcomes_status (outs : List (ℚ × ℚ × Bool)) (hne : outs ≠ []) :
    ∀ m : LoadedModel,
      (runOutcomes m outs).health.status =
        healthStatusOf (runOutcomes m outs).errors
          (runOutcomes m outs).predictions := by
  induction outs with
  | nil => exact absurd rfl hne
  | cons o os ih =>
    intro m
    have hfold : runOutcomes m (o :: os) =
        runOutcomes (updateModelStats o.1 m o.2.1 o.2.2) os := rfl
    cases os with
    | nil =>
      rw [hfold]
      exact (updateModelStats_counters o.1 m o.2.1 o.2.2).2.2.2.2.2
    | cons o2 os2 =>
      rw [hfold]
      exact ih (by simp) (updateModelStats o.1 m o.2.1 o.2.2)

theorem healthStatusOf_iff (K N : ℕ) :
    (healthStatusOf K N = "unhealthy" ↔ (K : ℚ) / (N : ℚ) > 1 / 2) ∧
    (healthStatusOf K N = "degraded" ↔
      (1 / 10 < (K : ℚ) / (N : ℚ) ∧ (K : ℚ) / (N : ℚ) ≤ 1 / 2)) ∧
    (healthStatusOf K N = "healthy" ↔ (K : ℚ) / (N : ℚ) ≤ 1 / 10) := by
  unfold healthStatusOf
  split_ifs with h1 h2
  · refine ⟨iff_of_true rfl h1, ?_, ?_⟩
    · constructor
      · intro hc
        exact absurd hc (by decide)
      · rintro ⟨_, hle⟩
        linarith
    · constructor
      · intro hc
        exact absurd hc (by decide)
      · intro hle
        linarith
  · refine ⟨?_, iff_of_true rfl ⟨h2, le_of_not_lt h1⟩, ?_⟩
    · constructor
      · intro hc
        exact absurd hc (by decide)
      · intro hgt
        exact absurd hgt h1
    · constructor
      · intro hc
        exact absurd hc (by decide)
      · intro hle
        linarith
  · refine ⟨?_, ?_, iff_of_true rfl (le_of_not_lt h2)⟩
    · constructor
      · intro hc
        exact absurd hc (by decide)
      · intro hgt
        exact absurd hgt h1
    · constructor
      · intro hc
        exact absurd hc (by decide)
      · rintro ⟨hgt, _⟩
        exact absurd hgt h2

/-! ### Claim theorem: model statistics (C2) -/

/-- C2: `UpdateModelStats` increments the prediction count by exactly one
on every call (success or failure, so the count never decreases); on
success the rolling average latency is recomputed as
`totalTime / predictions`; and after any sequence of `N ≥ 2` calls with
`K` failures on a freshly loaded model, the stored health status is
`"unhealthy"` iff `K/N > 0.5`, `"degraded"` iff `0.1 < K/N ≤ 0.5`, and
`"healthy"` otherwise. -/
theorem updateModelStats_monotone_and_health (m : LoadedModel)
    (now t : ℚ) (s : Bool) (outs : List (ℚ × ℚ × Bool))
    (hp : m.predictions = 0) (he : m.errors = 0)
    (hhp : m.health.predictions = 0) (hhe : m.health.errors = 0)
    (hN : 2 ≤ outs.length) :
    (updateModelStats now m t s).predictions = m.predictions + 1 ∧
    (updateModelStats now m t true).health.avgTime =
      (updateModelStats now m t true).totalTime /
        ((updateModelStats now m t true).predictions : ℚ) ∧
    (runOutcomes m outs).predictions = outs.length ∧
    (runOutcomes m outs).health.predictions = outs.length ∧
    ((runOutcomes m outs).health.status = "unhealthy" ↔
      (countFailures outs : ℚ) / (outs.length : ℚ) > 1 / 2) ∧
    ((runOutcomes m outs).health.status = "degraded" ↔
      (1 / 10 < (countFailures outs : ℚ) / (outs.length : ℚ) ∧
        (countFailures outs : ℚ) / (outs.length : ℚ) ≤ 1 / 2)) ∧
    ((runOutcomes m outs).health.status = "healthy" ↔
      (countFailures outs : ℚ) / (outs.length : ℚ) ≤ 1 / 10) := by
  obtain ⟨r1, r2, r3, r4⟩ := runOutcomes_counters outs m
  have hner : outs ≠ [] := by
    intro hc
    rw [hc] at hN
    simp at hN
  have hst := runOutcomes_status outs hner m
  rw [r3, r1, he, hp] at hst
  simp only [Nat.zero_add] at hst
  obtain ⟨q1, q2, q3⟩ := healthStatusOf_iff (countFailures outs) outs.length
  refine ⟨(updateModelStats_counters now m t s).1,
    updateModelStats_avgTime now m t, ?_, ?_, ?_, ?_, ?_⟩
  · rw [r1, hp]
    omega
  · rw [r2, hhp]
    omega
  · rw [hst]
    exact q1
  · rw [hst]
    exact q2
  · rw [hst]
    exact q3

theorem updateModelStats_monotone_and_health_witness :
    (updateModelStats 0 (createDummyModel 0) 0 true).predictions =
      (createDummyModel 0).predictions + 1 ∧
    (updateModelStats 0 (createDummyModel 0) 0 true).health.avgTime =
      (updateModelStats 0 (createDummyModel 0) 0 true).totalTime /
        ((updateModelStats 0 (createDummyModel 0) 0 true).predictions : ℚ) ∧
    (runOutcomes (createDummyModel 0) [(0, 0, false), (0, 0, true)]).predictions =
      ([(0, 0, false), (0, 0, true)] : List (ℚ × ℚ × Bool)).length ∧
    (runOutcomes (createDummyModel 0) [(0, 0, false), (0, 0, true)]).health.predictions =
      ([(0, 0, false), (0, 0, true)] : List (ℚ × ℚ × Bool)).length ∧
    ((runOutcomes (createDummyModel 0) [(0, 0, false), (0, 0, true)]).health.status = "unhealthy" ↔
      (countFailures [(0, 0, false), (0, 0, true)] : ℚ) /
        (([(0, 0, false), (0, 0, true)] : List (ℚ × ℚ × Bool)).length : ℚ) > 1 / 2) ∧
    ((runOutcomes (createDummyModel 0) [(0, 0, false), (0, 0, true)]).health.status = "degraded" ↔
      (1 / 10 < (countFailures [(0, 0, false), (0, 0, true)] : ℚ) /
        (([(0, 0, false), (0, 0, true)] : List (ℚ × ℚ × Bool)).length : ℚ) ∧
        (countFailures [(0, 0, false), (0, 0, true)] : ℚ) /
          (([(0, 0, false), (0, 0, true)] : List (ℚ × ℚ × Bool)).length : ℚ) ≤ 1 / 2)) ∧
    ((runOutcomes (createDummyModel 0) [(0, 0, false), (0, 0, true)]).health.status = "healthy" ↔
      (countFailures [(0, 0, false), (0, 0, true)] : ℚ) /
        (([(0, 0, false), (0, 0, true)] : List (ℚ × ℚ × Bool)).length : ℚ) ≤ 1 / 10) :=
  updateModelStats_monotone_and_health (createDummyModel 0) 0 0 true
    [(0, 0, false), (0, 0, true)] rfl rfl rfl rfl (by norm_num)

/-! ### Claim theorems: dummy-model fallback (C3) -/

theorem loadModels_no_subdirs (version : String) (now : ℚ)
    (entries : List DirEntry)
    (h : entries.filter (fun e => e.isDir) = []) :
    loadModels version now (some entries) =
      { models := [("dummy", createDummyModel now)],
        defaultModel := "dummy" } := by
  unfold loadModels
  dsimp only
  rw [h]
  simp

/-- C3 counterexample: with the model directory absent, the registry holds
exactly the `"dummy"` placeholder as the default, `ListModels` returns
exactly that model, and the placeholder's own health is `"healthy"` — but
`APIHealthCheck`'s aggregate status is `"healthy"`, not `"degraded"` as
claimed, because the aggregation only degrades when some model's health
status differs from `"healthy"`. -/
theorem dummy_fallback_aggregate_not_degraded_cex :
    listModels (loadModels "1.0.0" 0 none) = [(createDummyModel 0).info] ∧
    (loadModels "1.0.0" 0 none).defaultModel = "dummy" ∧
    (createDummyModel 0).info.id = "dummy" ∧
    (createDummyModel 0).health.status = "healthy" ∧
    healthCheckStatus (getModelStatus (loadModels "1.0.0" 0 none)) =
      "healthy" ∧
    healthCheckStatus (getModelStatus (loadModels "1.0.0" 0 none)) ≠
      "degraded" := by
  refine ⟨rfl, rfl, rfl, rfl, ?_, ?_⟩
  · simp [healthCheckStatus, getModelStatus, loadModels, createDummyModel,
      freshHealth]
  · simp [healthCheckStatus, getModelStatus, loadModels, createDummyModel,
      freshHealth]

/-- C3 amended: when the model directory is absent or contains no
subdirectories, the registry synthesizes exactly the `"dummy"` placeholder,
it becomes the default, `ListModels` returns exactly that one model, and
the placeholder reports `"healthy"`; the system-level aggregate status is
therefore `"healthy"` (not `"degraded"`), since the aggregation in
`APIHealthCheck` only reports `"degraded"` when some model's health status
is not `"healthy"`. -/
theorem dummy_fallback_amended (version : String) (now : ℚ)
    (dir : Option (List DirEntry))
    (h : dir = none ∨ ∃ entries, dir = some entries ∧
      entries.filter (fun e => e.isDir) = []) :
    loadModels version now dir =
      { models := [("dummy", createDummyModel now)],
        defaultModel := "dummy" } ∧
    listModels (loadModels version now dir) =
      [(createDummyModel now).info] ∧
    (createDummyModel now).info.id = "dummy" ∧
    (createDummyModel now).health.status = "healthy" ∧
    healthCheckStatus (getModelStatus (loadModels version now dir)) =
      "healthy" := by
  have hload : loadModels version now dir =
      { models := [("dummy", createDummyModel now)],
        defaultModel := "dummy" } := by
    rcases h with rfl | ⟨entries, rfl, hent⟩
    · rfl
    · exact loadModels_no_subdirs version now entries hent
  refine ⟨hload, ?_, rfl, rfl, ?_⟩
  · rw [hload]
    rfl
  · rw [hload]
    simp [healthCheckStatus, getModelStatus, createDummyModel, freshHealth]

theorem dummy_fallback_amended_witness :
    loadModels "1.0.0" 0 none =
      { models := [("dummy", createDummyModel 0)],
        defaultModel := "dummy" } ∧
    listModels (loadModels "1.0.0" 0 none) = [(createDummyModel 0).info] ∧
    (createDummyModel 0).info.id = "dummy" ∧
    (createDummyModel 0).health.status = "healthy" ∧
    healthCheckStatus (getModelStatus (loadModels "1.0.0" 0 none)) =
      "healthy" :=
  dummy_fallback_amended "1.0.0" 0 none (Or.inl rfl)

/-! ### Claim theorem: upload validation (C6) -/

/-- C6: `ValidateImage` succeeds exactly when the declared size is within
the configured maximum (default 10 MiB), the declared content-type is in
the allow-list, and the MIME type sniffed from the leading magic bytes of
the first 512 bytes is in the allow-list — so a sniffed type outside the
allow-list is rejected even when the declared type is allowed; the magic
prefixes `FF D8 FF`, `89 50 4E 47` and `RIFF….WEBP` sniff as JPEG, PNG and
WebP respectively. -/
theorem validateImage_checks (cfg : UploadConfig) (size : ℤ) (ct : String)
    (data : List ℕ) :
    (validateImage cfg size ct data = .ok () ↔
      (size ≤ cfg.maxFileSize ∧ isAllowedType cfg ct = true ∧
        isAllowedType cfg (detectMimeType (data.take 512)) = true)) ∧
    defaultUploadConfig.maxFileSize = 10 * 1024 * 1024 ∧
    defaultUploadConfig.allowedTypes =
      ["image/jpeg", "image/png", "image/webp"] ∧
    (∀ rest : List ℕ, rest ≠ [] →
      detectMimeType ([0xFF, 0xD8, 0xFF] ++ rest) = "image/jpeg") ∧
    (∀ rest : List ℕ,
      detectMimeType ([0x89, 0x50, 0x4E, 0x47] ++ rest) = "image/png") ∧
    (∀ b4 b5 b6 b7 : ℕ, ∀ rest : List ℕ,
      detectMimeType ([0x52, 0x49, 0x46, 0x46, b4, b5, b6, b7,
        0x57, 0x45, 0x42, 0x50] ++ rest) = "image/webp") := by
  refine ⟨?_, rfl, rfl, ?_, ?_, ?_⟩
  · unfold validateImage
    by_cases h1 : size > cfg.maxFileSize
    · rw [if_pos h1]
      exact iff_of_false (by simp)
        (fun h => absurd h1 (not_lt.mpr h.1))
    · rw [if_neg h1]
      by_cases h2 : isAllowedType cfg ct = true
      · rw [if_neg (fun hc => hc h2)]
        dsimp only
        by_cases h3 :
            isAllowedType cfg (detectMimeType (data.take 512)) = true
        · rw [if_neg (fun hc => hc h3)]
          exact iff_of_true rfl ⟨not_lt.mp h1, h2, h3⟩
        · rw [if_pos h3]
          exact iff_of_false (by simp) (fun h => h3 h.2.2)
      · rw [if_pos h2]
        exact iff_of_false (by simp) (fun h => h2 h.2.1)
  · intro rest hrest
    cases rest with
    | nil => exact absurd rfl hrest
    | cons r rs =>
      unfold detectMimeType
      rw [if_neg (by simp), if_pos (by simp)]
  · intro rest
    unfold detectMimeType
    rw [if_neg (by simp), if_neg (by simp), if_pos (by simp)]
  · intro b4 b5 b6 b7 rest
    unfold detectMimeType
    rw [if_neg (by simp), if_neg (by simp), if_neg (by simp),
      if_pos ⟨by simp, by simp, by simp⟩]

theorem validateImage_checks_witness :
    (validateImage defaultUploadConfig 5 "image/jpeg"
        [0xFF, 0xD8, 0xFF, 0x00] = .ok () ↔
      ((5 : ℤ) ≤ defaultUploadConfig.maxFileSize ∧
        isAllowedType defaultUploadConfig "image/jpeg" = true ∧
        isAllowedType defaultUploadConfig
          (detectMimeType (([0xFF, 0xD8, 0xFF, 0x00] : List ℕ).take 512)) =
          true)) ∧
    detectMimeType ([0xFF, 0xD8, 0xFF] ++ [0x00]) = "image/jpeg" :=
  ⟨(validateImage_checks defaultUploadConfig 5 "image/jpeg"
      [0xFF, 0xD8, 0xFF, 0x00]).1,
   (validateImage_checks defaultUploadConfig 5 "image/jpeg"
      [0xFF, 0xD8, 0xFF, 0x00]).2.2.2.1 [0x00] (by simp)⟩

/-! ### Lemmas about association lists -/

theorem assocFind_assocSet (k : String) (v m : α) (l : List (String × α))
    (h : assocFind k l = some m) :
    assocFind k (assocSet k v l) = some v := by
  induction l with
  | nil => simp [assocFind] at h
  | cons p rest ih =>
    by_cases hk : p.1 = k
    · obtain ⟨k', v'⟩ := p
      simp only at hk
      simp [assocSet, assocFind, hk]
    · obtain ⟨k', v'⟩ := p
      simp only at hk
      simp only [assocSet, assocFind, if_neg hk] at h ⊢
      exact ih h

theorem assocFind_cons_ne (k k' : String) (v : α) (l : List (String × α))
    (h : k' ≠ k) : assocFind k ((k', v) :: l) = assocFind k l := by
  simp [assocFind, h]

/-! ### Claim theorems: prediction atomicity (C7) -/

/-- C7 counterexample: the error counter is NOT always incremented on a
failed prediction.  The registry keys a model by its directory name
(`"model1"`), but `PredictImage` records the failure outcome against
`model.Info.ID`, which comes straight from `metadata.json` and here is
`"other"`; `UpdateModelStats` finds no entry under `"other"` and silently
returns, so after the failed prediction the registry is completely
unchanged and the loaded model's error counters are still `0`. -/
theorem predictImage_error_counter_noop_cex :
    (predictImage
        ⟨loadModels "1.0.0" 0 (some [DirEntry.mk "model1" true
          (some (ModelInfo.mk "other" "m" "1.0.0" "d" [224, 224, 3] [50]
            ["cat"] 0 []))]), []⟩
        "model1" ⟨"f.jpg", 5, 1, 1, "jpeg", "image/jpeg", 0⟩
        (.ok ()) (.ok ()) (.error "boom") 0 "id1" 0).2 =
      .error ("inference failed: " ++ "boom") ∧
    (loadModels "1.0.0" 0 (some [DirEntry.mk "model1" true
        (some (ModelInfo.mk "other" "m" "1.0.0" "d" [224, 224, 3] [50]
          ["cat"] 0 []))])).models =
      [("model1", loadModelEntry "1.0.0" 0 (DirEntry.mk "model1" true
        (some (ModelInfo.mk "other" "m" "1.0.0" "d" [224, 224, 3] [50]
          ["cat"] 0 []))))] ∧
    (loadModelEntry "1.0.0" 0 (DirEntry.mk "model1" true
        (some (ModelInfo.mk "other" "m" "1.0.0" "d" [224, 224, 3] [50]
          ["cat"] 0 [])))).info.id = "other" ∧
    (predictImage
        ⟨loadModels "1.0.0" 0 (some [DirEntry.mk "model1" true
          (some (ModelInfo.mk "other" "m" "1.0.0" "d" [224, 224, 3] [50]
            ["cat"] 0 []))]), []⟩
        "model1" ⟨"f.jpg", 5, 1, 1, "jpeg", "image/jpeg", 0⟩
        (.ok ()) (.ok ()) (.error "boom") 0 "id1" 0).1.modelSvc =
      loadModels "1.0.0" 0 (some [DirEntry.mk "model1" true
        (some (ModelInfo.mk "other" "m" "1.0.0" "d" [224, 224, 3] [50]
          ["cat"] 0 []))]) ∧
    (loadModelEntry "1.0.0" 0 (DirEntry.mk "model1" true
        (some (ModelInfo.mk "other" "m" "1.0.0" "d" [224, 224, 3] [50]
          ["cat"] 0 [])))).errors = 0 ∧
    (loadModelEntry "1.0.0" 0 (DirEntry.mk "model1" true
        (some (ModelInfo.mk "other" "m" "1.0.0" "d" [224, 224, 3] [50]
          ["cat"] 0 [])))).health.errors = 0 :=
  ⟨rfl, rfl, rfl, rfl, rfl, rfl⟩

/-- C7 amended: `PredictImage` is atomic with respect to the result store:
whenever it returns an error nothing is added to the result store, and on
success exactly one result is stored under the fresh generated ID, leaving
every other ID's lookup unchanged.  On an inference failure the
record-outcome call with `success = false` is issued against
`model.Info.ID`: when the registry has an entry under that id (as in the
dummy and default-metadata load paths, where the id equals the registry
key) the model's error counter is incremented — but when `metadata.json`
declares an id different from its directory name the call misses the
registry and is a silent no-op, leaving the registry unchanged. -/
theorem predictImage_atomic_amended (st : PredSvcState) (modelID : String)
    (metadata : ImageMetadata) (decodeRes preRes : Except String Unit)
    (infRes : Except String (List ClassificationResult))
    (procTime : ℚ) (freshID : String) (now : ℚ) :
    (∀ e, (predictImage st modelID metadata decodeRes preRes infRes
        procTime freshID now).2 = .error e →
      (predictImage st modelID metadata decodeRes preRes infRes
        procTime freshID now).1.results = st.results) ∧
    (∀ model m e, getModel st.modelSvc modelID = .ok model →
      decodeRes = .ok () → preRes = .ok () → infRes = .error e →
      assocFind model.info.id st.modelSvc.models = some m →
      assocFind model.info.id
          (predictImage st modelID metadata decodeRes preRes infRes
            procTime freshID now).1.modelSvc.models =
        some (updateModelStats now m 0 false) ∧
      (updateModelStats now m 0 false).errors = m.errors + 1) ∧
    (∀ model e, getModel st.modelSvc modelID = .ok model →
      decodeRes = .ok () → preRes = .ok () → infRes = .error e →
      assocFind model.info.id st.modelSvc.models = none →
      (predictImage st modelID metadata decodeRes preRes infRes
        procTime freshID now).1.modelSvc = st.modelSvc) ∧
    (∀ model preds, getModel st.modelSvc modelID = .ok model →
      decodeRes = .ok () → preRes = .ok () → infRes = .ok preds →
      ∃ r, (predictImage st modelID metadata decodeRes preRes infRes
          procTime freshID now).2 = .ok r ∧
        r.id = freshID ∧
        (predictImage st modelID metadata decodeRes preRes infRes
          procTime freshID now).1.results = (freshID, r) :: st.results ∧
        getResult (predictImage st modelID metadata decodeRes preRes infRes
          procTime freshID now).1.results freshID = .ok r ∧
        (∀ id, id ≠ freshID →
          getResult (predictImage st modelID metadata decodeRes preRes
            infRes procTime freshID now).1.results id =
            getResult st.results id)) := by
  cases hg : getModel st.modelSvc modelID with
  | error e0 =>
    refine ⟨?_, ?_, ?_, ?_⟩
    · intro e _
      simp [predictImage, hg]
    · intro model m e hgo
      exact absurd hgo (by simp)
    · intro model e hgo
      exact absurd hgo (by simp)
    · intro model preds hgo
      exact absurd hgo (by simp)
  | ok model0 =>
    cases decodeRes with
    | error ed =>
      refine ⟨?_, ?_, ?_, ?_⟩
      · intro e _
        simp [predictImage, hg]
      · intro _ _ _ _ hd
        exact absurd hd (by simp)
      · intro _ _ _ hd
        exact absurd hd (by simp)
      · intro _ _ _ hd
        exact absurd hd (by simp)
    | ok ud =>
      cases ud
      cases preRes with
      | error ep =>
        refine ⟨?_, ?_, ?_, ?_⟩
        · intro e _
          simp [predictImage, hg]
        · intro _ _ _ _ _ hp
          exact absurd hp (by simp)
        · intro _ _ _ _ hp
          exact absurd hp (by simp)
        · intro _ _ _ _ hp
          exact absurd hp (by simp)
      | ok up =>
        cases up
        cases infRes with
        | error ei =>
          refine ⟨?_, ?_, ?_, ?_⟩
          · intro e _
            simp [predictImage, hg]
          · intro model m e hgo _ _ hi hm
            injection hgo with hgo
            subst hgo
            injection hi with hi
            subst hi
            constructor
            · simp only [predictImage, hg, updateModelStatsSvc, hm]
              exact assocFind_assocSet _ _ m st.modelSvc.models hm
            · have hc := (updateModelStats_counters now m 0 false).2.2.1
              simpa using hc
          · intro model e hgo _ _ hi hnone
            injection hgo with hgo
            subst hgo
            injection hi with hi
            subst hi
            simp only [predictImage, hg, updateModelStatsSvc, hnone]
          · intro _ _ _ _ _ hi
            exact absurd hi (by simp)
        | ok preds0 =>
          refine ⟨?_, ?_, ?_, ?_⟩
          · intro e he
            simp [predictImage, hg] at he
          · intro _ _ _ _ _ _ hi
            exact absurd hi (by simp)
          · intro _ _ _ _ _ hi
            exact absurd hi (by simp)
          · intro model preds hgo _ _ hi
            injection hgo with hgo
            subst hgo
            injection hi with hi
            subst hi
            refine ⟨PredictionResult.mk freshID preds0 metadata now
              procTime model0.info, ?_, rfl, ?_, ?_, ?_⟩
            · simp [predictImage, hg]
            · simp [predictImage, hg, putResult]
            · simp [predictImage, hg, putResult, getResult, assocFind]
            · intro id hid
              simp only [predictImage, hg, putResult]
              unfold getResult
              rw [assocFind_cons_ne id freshID _ st.results
                (fun hc => hid hc.symm)]

theorem predictImage_atomic_amended_witness :
    (predictImage ⟨loadModels "1.0.0" 0 none, []⟩ ""
        ⟨"f.jpg", 5, 1, 1, "jpeg", "image/jpeg", 0⟩ (.ok ()) (.ok ())
        (.error "boom") 0 "id1" 0).1.results = [] ∧
    assocFind "dummy"
        (predictImage ⟨loadModels "1.0.0" 0 none, []⟩ ""
          ⟨"f.jpg", 5, 1, 1, "jpeg", "image/jpeg", 0⟩ (.ok ()) (.ok ())
          (.error "boom") 0 "id1" 0).1.modelSvc.models =
      some (updateModelStats 0 (createDummyModel 0) 0 false) ∧
    (updateModelStats 0 (createDummyModel 0) 0 false).errors =
      (createDummyModel 0).errors + 1 ∧
    (predictImage
        ⟨loadModels "1.0.0" 0 (some [DirEntry.mk "model1" true
          (some (ModelInfo.mk "other" "m" "1.0.0" "d" [224, 224, 3] [50]
            ["cat"] 0 []))]), []⟩
        "model1" ⟨"f.jpg", 5, 1, 1, "jpeg", "image/jpeg", 0⟩
        (.ok ()) (.ok ()) (.error "boom") 0 "id1" 0).1.modelSvc =
      loadModels "1.0.0" 0 (some [DirEntry.mk "model1" true
        (some (ModelInfo.mk "other" "m" "1.0.0" "d" [224, 224, 3] [50]
          ["cat"] 0 []))]) ∧
    (∃ r, (predictImage ⟨loadModels "1.0.0" 0 none, []⟩ ""
          ⟨"f.jpg", 5, 1, 1, "jpeg", "image/jpeg", 0⟩ (.ok ()) (.ok ())
          (.ok []) 2 "id1" 0).2 = .ok r ∧
      r.id = "id1" ∧
      (predictImage ⟨loadModels "1.0.0" 0 none, []⟩ ""
          ⟨"f.jpg", 5, 1, 1, "jpeg", "image/jpeg", 0⟩ (.ok ()) (.ok ())
          (.ok []) 2 "id1" 0).1.results = [("id1", r)] ∧
      getResult (predictImage ⟨loadModels "1.0.0" 0 none, []⟩ ""
          ⟨"f.jpg", 5, 1, 1, "jpeg", "image/jpeg", 0⟩ (.ok ()) (.ok ())
          (.ok []) 2 "id1" 0).1.results "id1" = .ok r ∧
      (∀ id, id ≠ "id1" →
        getResult (predictImage ⟨loadModels "1.0.0" 0 none, []⟩ ""
            ⟨"f.jpg", 5, 1, 1, "jpeg", "image/jpeg", 0⟩ (.ok ()) (.ok ())
            (.ok []) 2 "id1" 0).1.results id =
          getResult [] id)) := by
  have h1 := predictImage_atomic_amended ⟨loadModels "1.0.0" 0 none, []⟩ ""
    ⟨"f.jpg", 5, 1, 1, "jpeg", "image/jpeg", 0⟩ (.ok ()) (.ok ())
    (.error "boom") 0 "id1" 0
  have h2 := predictImage_atomic_amended ⟨loadModels "1.0.0" 0 none, []⟩ ""
    ⟨"f.jpg", 5, 1, 1, "jpeg", "image/jpeg", 0⟩ (.ok ()) (.ok ())
    (.ok []) 2 "id1" 0
  have h3 := predictImage_atomic_amended
    ⟨loadModels "1.0.0" 0 (some [DirEntry.mk "model1" true
      (some (ModelInfo.mk "other" "m" "1.0.0" "d" [224, 224, 3] [50]
        ["cat"] 0 []))]), []⟩
    "model1" ⟨"f.jpg", 5, 1, 1, "jpeg", "image/jpeg", 0⟩
    (.ok ()) (.ok ()) (.error "boom") 0 "id1" 0
  have herr := h1.2.1 (createDummyModel 0) (createDummyModel 0) "boom"
    rfl rfl rfl rfl rfl
  have hnoop := h3.2.2.1
    (loadModelEntry "1.0.0" 0 (DirEntry.mk "model1" true
      (some (ModelInfo.mk "other" "m" "1.0.0" "d" [224, 224, 3] [50]
        ["cat"] 0 [])))) "boom" rfl rfl rfl rfl rfl
  exact ⟨h1.1 "inference failed: boom" rfl, herr.1, herr.2, hnoop,
    h2.2.2.2 (createDummyModel 0) [] rfl rfl rfl rfl⟩

/-! ### Lemmas about the result store -/

theorem assocFind_mem (k : String) (v : α) (l : List (String × α))
    (h : assocFind k l = some v) : (k, v) ∈ l := by
  induction l with
  | nil => simp [assocFind] at h
  | cons p rest ih =>
    obtain ⟨k', v'⟩ := p
    by_cases hk : k' = k
    · subst hk
      simp [assocFind] at h
      subst h
      exact List.mem_cons_self _ _
    · simp only [assocFind, if_neg hk] at h
      exact List.mem_cons_of_mem _ (ih h)

theorem keys_nodup_mem_unique (l : List (String × α))
    (hnd : (l.map Prod.fst).Nodup) (k : String) (v1 v2 : α)
    (h1 : (k, v1) ∈ l) (h2 : (k, v2) ∈ l) : v1 = v2 := by
  induction l with
  | nil => simp at h1
  | cons p rest ih =>
    obtain ⟨k', v'⟩ := p
    simp only [List.map_cons, List.nodup_cons] at hnd
    rcases List.mem_cons.mp h1 with e1 | m1 <;>
      rcases List.mem_cons.mp h2 with e2 | m2
    · injection e1 with hk1 hv1
      injection e2 with hk2 hv2
      exact hv1.trans hv2.symm
    · exfalso
      injection e1 with hk1 hv1
      apply hnd.1
      rw [← hk1]
      exact List.mem_map.mpr ⟨(k, v2), m2, rfl⟩
    · exfalso
      injection e2 with hk2 hv2
      apply hnd.1
      rw [← hk2]
      exact List.mem_map.mpr ⟨(k, v1), m1, rfl⟩
    · exact ih hnd.2 m1 m2

theorem getResult_eq_ok_iff (l : List (String × PredictionResult))
    (k : String) (r : PredictionResult) :
    getResult l k = .ok r ↔ assocFind k l = some r := by
  unfold getResult
  cases h : assocFind k l <;> simp

/-! ### Claim theorem: result store round-trip and sweep (C8) -/

/-- C8: storing a result and immediately fetching it by its ID returns
that result; the sweep removes exactly the entries whose `processedAt` is
strictly older than `now - maxAge`; and (with unique store keys, as a Go
map guarantees) a stored result older than the cutoff is a not-found error
after the sweep. -/
theorem resultStore_roundtrip_sweep
    (results : List (String × PredictionResult)) (resultID : String)
    (r : PredictionResult) (id' : String) (e : PredictionResult)
    (now maxAge : ℚ) :
    getResult (putResult results resultID r) resultID = .ok r ∧
    ((id', e) ∈ cleanupResults results now maxAge ↔
      ((id', e) ∈ results ∧ ¬(e.processedAt < now - maxAge))) ∧
    ((results.map Prod.fst).Nodup →
      getResult results resultID = .ok r →
      r.processedAt < now - maxAge →
      getResult (cleanupResults results now maxAge) resultID =
        .error ("result not found: " ++ resultID)) := by
  refine ⟨?_, ?_, ?_⟩
  · simp [getResult, putResult, assocFind]
  · simp [cleanupResults, List.mem_filter]
  · intro hnd hget hold
    rw [getResult_eq_ok_iff] at hget
    have hmem := assocFind_mem _ _ _ hget
    cases hf : assocFind resultID (cleanupResults results now maxAge) with
    | none =>
      unfold getResult
      rw [hf]
    | some v =>
      exfalso
      have hmemf := assocFind_mem _ _ _ hf
      simp only [cleanupResults, List.mem_filter, Bool.not_eq_true',
        decide_eq_false_iff_not] at hmemf
      have hrv : r = v :=
        keys_nodup_mem_unique results hnd resultID r v hmem hmemf.1
      exact hmemf.2 (hrv ▸ hold)

theorem resultStore_roundtrip_sweep_witness :
    getResult
        (putResult [("a", PredictionResult.mk "a" []
          (ImageMetadata.mk "f" 1 1 1 "png" "image/png" 0) 0 0
          (createDummyModel 0).info)] "a"
          (PredictionResult.mk "a" []
            (ImageMetadata.mk "f" 1 1 1 "png" "image/png" 0) 0 0
            (createDummyModel 0).info)) "a" =
      .ok (PredictionResult.mk "a" []
        (ImageMetadata.mk "f" 1 1 1 "png" "image/png" 0) 0 0
        (createDummyModel 0).info) ∧
    (("a", PredictionResult.mk "a" []
        (ImageMetadata.mk "f" 1 1 1 "png" "image/png" 0) 0 0
        (createDummyModel 0).info) ∈
      cleanupResults [("a", PredictionResult.mk "a" []
        (ImageMetadata.mk "f" 1 1 1 "png" "image/png" 0) 0 0
        (createDummyModel 0).info)] 10 1 ↔
      (("a", PredictionResult.mk "a" []
          (ImageMetadata.mk "f" 1 1 1 "png" "image/png" 0) 0 0
          (createDummyModel 0).info) ∈
        [("a", PredictionResult.mk "a" []
          (ImageMetadata.mk "f" 1 1 1 "png" "image/png" 0) 0 0
          (createDummyModel 0).info)] ∧
        ¬((PredictionResult.mk "a" []
          (ImageMetadata.mk "f" 1 1 1 "png" "image/png" 0) 0 0
          (createDummyModel 0).info).processedAt < 10 - 1))) ∧
    getResult
        (cleanupResults [("a", PredictionResult.mk "a" []
          (ImageMetadata.mk "f" 1 1 1 "png" "image/png" 0) 0 0
          (createDummyModel 0).info)] 10 1) "a" =
      .error ("result not found: " ++ "a") := by
  have h := resultStore_roundtrip_sweep
    [("a", PredictionResult.mk "a" []
      (ImageMetadata.mk "f" 1 1 1 "png" "image/png" 0) 0 0
      (createDummyModel 0).info)] "a"
    (PredictionResult.mk "a" []
      (ImageMetadata.mk "f" 1 1 1 "png" "image/png" 0) 0 0
      (createDummyModel 0).info) "a"
    (PredictionResult.mk "a" []
      (ImageMetadata.mk "f" 1 1 1 "png" "image/png" 0) 0 0
      (createDummyModel 0).info) 10 1
  exact ⟨h.1, h.2.1, h.2.2 (by simp) rfl (by norm_num)⟩

/-! ### Lemmas about simulated inference (C10) -/

theorem mem_infCandidates (classes : List String) (conf : ℕ → ℚ)
    (x : ClassificationResult) (hx : x ∈ infCandidates classes conf) :
    x.probability = x.confidence ∧ 1 / 100 < x.confidence := by
  unfold infCandidates at hx
  obtain ⟨a, _, ha⟩ := List.mem_filterMap.mp hx
  dsimp only at ha
  by_cases h : conf a.1 > 1 / 100
  · rw [if_pos h] at ha
    injection ha with ha
    cases ha
    exact ⟨rfl, h⟩
  · rw [if_neg h] at ha
    exact absurd ha (by simp)

theorem normalize_length (preds : List ClassificationResult) :
    (normalizeProbabilities preds).length = preds.length := by
  simp only [normalizeProbabilities]
  split <;> simp

theorem normalize_pairwise_conf (preds : List ClassificationResult)
    (h : preds.Pairwise (fun a b => b.confidence ≤ a.confidence)) :
    (normalizeProbabilities preds).Pairwise
      (fun a b => b.confidence ≤ a.confidence) := by
  simp only [normalizeProbabilities]
  split
  · rw [List.pairwise_map]
    exact h
  · exact h

theorem normalize_mem_conf (preds : List ClassificationResult)
    (x : ClassificationResult) (hx : x ∈ normalizeProbabilities preds) :
    ∃ p ∈ preds, x.confidence = p.confidence := by
  simp only [normalizeProbabilities] at hx
  split at hx
  · obtain ⟨p, hp, rfl⟩ := List.mem_map.mp hx
    exact ⟨p, hp, rfl⟩
  · exact ⟨x, hx, rfl⟩

theorem normalize_sum (preds : List ClassificationResult)
    (h : 0 < (preds.map (fun p => p.probability)).sum) :
    ((normalizeProbabilities preds).map (fun p => p.probability)).sum = 1 := by
  simp only [normalizeProbabilities]
  rw [if_pos h, List.map_map]
  have hcomp : ((fun p : ClassificationResult => p.probability) ∘
      (fun p : ClassificationResult =>
        { p with probability :=
            p.probability / (preds.map (fun p => p.probability)).sum })) =
      ((fun x => x / (preds.map (fun p => p.probability)).sum) ∘
        (fun p : ClassificationResult => p.probability)) := rfl
  rw [hcomp, ← List.map_map, sum_map_div, div_self (ne_of_gt h)]

/-! ### Claim theorem: inference result invariants (C10) -/

/-- C10: every list of classifications successfully returned by the
simulated inference contains between 1 and 5 entries, sorted non-increasing
by confidence, each with confidence strictly greater than `0.01`;
probabilities are normalized to sum to `1` over the full candidate set
before truncation to the top five, so the probabilities of a returned
(truncated) list may sum to less than `1` — witnessed by a six-candidate
run whose returned probabilities sum to `5/6`. -/
theorem performInference_invariants (classes : List String) (conf : ℕ → ℚ)
    (l : List ClassificationResult)
    (hok : performInference classes conf = .ok l) :
    (1 ≤ l.length ∧ l.length ≤ 5) ∧
    l.Pairwise (fun a b => b.confidence ≤ a.confidence) ∧
    (∀ x ∈ l, 1 / 100 < x.confidence) ∧
    (∃ full : List ClassificationResult, l = full.take 5 ∧
      (full.map (fun p => p.probability)).sum = 1) ∧
    (∃ cs f out, performInference cs f = .ok out ∧
      (out.map (fun p => p.probability)).sum < 1) := by
  simp only [performInference] at hok
  split at hok
  · exact absurd hok (by simp)
  · rename_i hlen0
    injection hok with hok
    subst hok
    set cands := infCandidates classes conf with hcands
    set sorted := exchSort (fun r => r.confidence) cands with hsortdef
    set normed := normalizeProbabilities sorted with hnormdef
    have hsortpw := exchSort_pairwise (fun r => r.confidence) cands
    have hsortperm := exchSort_perm (fun r => r.confidence) cands
    have hnonempty : 0 < (normed.take 5).length :=
      Nat.pos_of_ne_zero hlen0
    refine ⟨⟨hnonempty, by simp⟩, ?_, ?_, ?_, ?_⟩
    · exact List.Pairwise.sublist (List.take_sublist _ _)
        (normalize_pairwise_conf sorted hsortpw)
    · intro x hx
      have hxn : x ∈ normed := List.mem_of_mem_take hx
      obtain ⟨p, hp, hconf⟩ := normalize_mem_conf sorted x hxn
      have hpc : p ∈ cands := hsortperm.mem_iff.mp hp
      rw [hconf]
      exact (mem_infCandidates classes conf p hpc).2
    · refine ⟨normed, rfl, ?_⟩
      apply normalize_sum
      have hmapeq : (sorted.map (fun p => p.probability)).sum =
          (cands.map (fun p => p.probability)).sum :=
        (hsortperm.map (fun p => p.probability)).sum_eq
      rw [hmapeq]
      have hcne : cands ≠ [] := by
        intro hc
        have h0 : normed.length = 0 := by
          rw [hnormdef, normalize_length, hsortperm.length_eq, hc]
          rfl
        rw [List.length_take, h0] at hnonempty
        simp at hnonempty
      obtain ⟨c0, hc0⟩ := List.exists_mem_of_ne_nil cands hcne
      obtain ⟨hc0p, hc0c⟩ := mem_infCandidates classes conf c0 hc0
      apply sum_pos_of_mem _ ?_ c0.probability ?_ ?_
      · intro y hy
        obtain ⟨q, hq, rfl⟩ := List.mem_map.mp hy
        obtain ⟨hqp, hqc⟩ := mem_infCandidates classes conf q hq
        rw [hqp]
        linarith
      · exact List.mem_map.mpr ⟨c0, hc0, rfl⟩
      · rw [hc0p]
        linarith
    · refine ⟨["a", "b", "c", "d", "e", "f"], fun _ => 1,
        [ClassificationResult.mk "a" "a" (getClassDescription "a") 1 (1/6),
         ClassificationResult.mk "b" "b" (getClassDescription "b") 1 (1/6),
         ClassificationResult.mk "c" "c" (getClassDescription "c") 1 (1/6),
         ClassificationResult.mk "d" "d" (getClassDescription "d") 1 (1/6),
         ClassificationResult.mk "e" "e" (getClassDescription "e") 1 (1/6)],
        ?_, ?_⟩
      · norm_num [performInference, infCandidates, normalizeProbabilities,
          exchSort, exchSortAux, exchPass]
      · norm_num

theorem performInference_invariants_witness :
    ((1 ≤ ([ClassificationResult.mk "cat" "cat" (getClassDescription "cat")
        1 1] : List ClassificationResult).length ∧
      ([ClassificationResult.mk "cat" "cat" (getClassDescription "cat")
        1 1] : List ClassificationResult).length ≤ 5)) ∧
    ([ClassificationResult.mk "cat" "cat" (getClassDescription "cat") 1 1] :
        List ClassificationResult).Pairwise
      (fun a b => b.confidence ≤ a.confidence) ∧
    (∀ x ∈ ([ClassificationResult.mk "cat" "cat" (getClassDescription "cat")
        1 1] : List ClassificationResult), 1 / 100 < x.confidence) ∧
    (∃ full : List ClassificationResult,
      ([ClassificationResult.mk "cat" "cat"
        (getClassDescription "cat") 1 1] : List ClassificationResult) =
        full.take 5 ∧
      (full.map (fun p => p.probability)).sum = 1) ∧
    (∃ cs f out, performInference cs f = .ok out ∧
      (out.map (fun p => p.probability)).sum < 1) :=
  performInference_invariants ["cat"] (fun _ => 1)
    [ClassificationResult.mk "cat" "cat" (getClassDescription "cat") 1 1]
    (by norm_num [performInference, infCandidates, normalizeProbabilities,
      exchSort, exchSortAux, exchPass])

end ImageRec
